import Mathlib

/-!
Shallow embedding of the squery sqlizator backend: the type-conversion
registry (`backend.py`), the reply-stream interpreter of
`Connection` (`connection.py`), and the bounded `ConnectionPool`
(`connection.py` / `pool.py`).  Python values flowing over the wire are
modelled by the inductive `Val`; Python exceptions by `Except PyErr`.
-/

namespace Squery

/-- A Python value as it appears on the sqlizator wire or after column
decoding: integers, unicode strings, byte strings, `None`, `datetime`
objects (epoch seconds, microseconds, and whether a UTC tzinfo is
attached), and arrays (Python lists/tuples both arrive as msgpack
arrays). -/
inductive Val where
  | vint (n : Int)
  | vstr (s : String)
  | vbytes (s : String)
  | vnone
  | vdt (sec : Int) (micro : Nat) (utcAware : Bool)
  | varr (elems : List Val)

/-- Python exceptions the embedded code can raise:
`OperationalError(code, message)` from `Connection._check_status`, plus
the `ValueError`/`TypeError` that `from_utc_timestamp` (`float()` on a
non-numeric value) and `Connection._construct_row` (unpacking a
non-pair, or `zip(None, ...)`) can raise. -/
inductive PyErr where
  | opError (code : Int) (message : String)
  | valueError
  | typeError
deriving DecidableEq, Repr

namespace Val

/-- Python truthiness of a `Val`: `0`, `''`, `b''`, `None` and `[]` are
falsy; any `datetime` object is truthy. -/
def truthy : Val → Bool
  | vint n => n != 0
  | vstr s => s != ""
  | vbytes s => s != ""
  | vnone => false
  | vdt _ _ _ => true
  | varr es => !es.isEmpty

/-- Model of `float(v)` restricted to the values a timestamp column actually
carries: an integer converts to itself, a decimal string parses, and
every other value raises `ValueError` (`none` here = raise). -/
def toNum? : Val → Option Int
  | vint n => some n
  | vstr s => s.toInt?
  | _ => none

end Val

/-- Model of `datetime.datetime` restricted to what the codec produces: UTC epoch
seconds, microseconds, and whether the object carries the `utc` tzinfo
(`utcAware = false` is a naive datetime). -/
structure PyDateTime where
  sec : Int
  micro : Nat
  utcAware : Bool
deriving DecidableEq, Repr

/-- Model of `backend.from_utc_timestamp(timestamp)`: when `timestamp` is truthy,
build `datetime.utcfromtimestamp(float(timestamp)).replace(tzinfo=utc)`;
when falsy, fall off the `if` and implicitly return `None`. -/
def from_utc_timestamp (timestamp : Val) : Except PyErr Val :=
  if timestamp.truthy then
    match timestamp.toNum? with
    | some n => .ok (.vdt n 0 true)
    | none => .error .valueError
  else
    .ok .vnone

/-- Model of `backend.to_utc_timestamp(dt)`: `calendar.timegm(dt.timetuple())`.
`timetuple()` exposes the datetime's own calendar fields to whole
seconds, so for a UTC-aware datetime (and for a naive one, after the
logged warning) the result is its epoch second count with the
sub-second part dropped. -/
def to_utc_timestamp (dt : PyDateTime) : Int := dt.sec

/-- Modelled from the spec: `utils.to_unicode` is not under `src/`; the
spec says text-typed columns are "normalized to decoded text", so byte
strings are decoded to unicode text and unicode text is kept. -/
def to_unicode : Val → Val
  | .vbytes s => .vstr s
  | v => v

/-- Model of `backend.from_text(text)`: truthy text is passed through
`to_unicode`; falsy text is returned as-is. -/
def from_text (text : Val) : Except PyErr Val :=
  if text.truthy then .ok (to_unicode text) else .ok text

/-- Model of `backend.SQLITE_DATE_TYPES`. -/
def SQLITE_DATE_TYPES : List String := ["date", "datetime", "timestamp"]

/-- Model of `backend.SQLITE_TEXT_TYPES`. -/
def SQLITE_TEXT_TYPES : List String := ["varchar", "text"]

/-- The from-primitive converter registry as populated at import time by
`backend.py`: every SQLITE date type name maps to `from_utc_timestamp`
and every SQLITE text type name maps to `from_text`; no other key is
registered. -/
def from_primitive_converters (type_name : String) :
    Option (Val → Except PyErr Val) :=
  if type_name ∈ SQLITE_DATE_TYPES then some from_utc_timestamp
  else if type_name ∈ SQLITE_TEXT_TYPES then some from_text
  else none

/-- Model of `Connection.from_primitive(value, type_name)`: look the column type
name up in the registry; a `KeyError` (unregistered name, or a key that
is not a string at all) returns the value unchanged, otherwise the
registered converter is applied. -/
def from_primitive (value : Val) (type_name : Val) : Except PyErr Val :=
  match type_name with
  | .vstr s =>
      match from_primitive_converters s with
      | some fn => fn value
      | none => .ok value
  | _ => .ok value

/-- A decoded top-level reply frame, as handed to
`Connection._process_reply`: a msgpack map (the status object, with its
optional `status` and `message` keys) or a msgpack array. -/
inductive Frame where
  | status (code : Option Int) (message : Option String)
  | arr (elems : List Val)

namespace Connection

/-- Model of `Connection.OK`. -/
def OK : Int := 0

/-- Model of `Connection.UNKNOWN_ERROR`. -/
def UNKNOWN_ERROR : Int := 1

/-- Model of `Connection.DEFAULT_MESSAGE`. -/
def DEFAULT_MESSAGE : String := "Unknown error."

/-- Model of `Connection._check_status(data)`: read the `status` key (defaulting
to `UNKNOWN_ERROR` when absent); a non-OK status raises
`OperationalError(status, message)` with the `message` key defaulting to
`DEFAULT_MESSAGE`; an OK status returns `None`. -/
def check_status (code : Option Int) (message : Option String) :
    Except PyErr Unit :=
  let status := code.getD UNKNOWN_ERROR
  if status ≠ OK then
    .error (.opError status (message.getD DEFAULT_MESSAGE))
  else
    .ok ()

/-- A decoded row.  `Connection._construct_row` fills a Python dict by
assigning `row[col_name] = value` in zip order; we keep the assignment
sequence itself.  The claims only ever ask whether a key has an entry
and whether the dict is empty, and on those observations the assignment
sequence and the dict agree (a duplicate column name shadows, but it
neither adds nor removes a key and cannot empty the dict). -/
abbrev Row := List (Val × Val)

/-- Tuple unpacking `(col_name, col_type) = mv` of one cached metadata
element: a two-element array unpacks into its components and anything
else raises (Python raises `TypeError` or `ValueError` depending on the
value; no claim distinguishes the two, so both are `valueError`). -/
def unpackPair : Val → Except PyErr (Val × Val)
  | .varr [a, b] => .ok (a, b)
  | _ => .error .valueError

/-- The loop body of `Connection._construct_row`: for each
`((col_name, col_type), value)` in the zip of the cached metadata with
the row frame, assign `row[col_name] = from_primitive(value, col_type)`.
An unpack or conversion error aborts the whole row. -/
def construct_row_go : List (Val × Val) → Except PyErr Row
  | [] => .ok []
  | (mv, value) :: rest => do
      let (col_name, col_type) ← unpackPair mv
      let v ← from_primitive value col_type
      let r ← construct_row_go rest
      .ok ((col_name, v) :: r)

/-- Model of `Connection._construct_row(data)`: zip `self._meta_info` with the
row frame and decode each column.  When no metadata frame has arrived
yet, `self._meta_info` is `None` and `zip(None, data)` raises
`TypeError`. -/
def construct_row (meta : Option (List Val)) (data : List Val) :
    Except PyErr Row :=
  match meta with
  | none => .error .typeError
  | some m => construct_row_go (m.zip data)

/-- Model of `isinstance(data[-1], (list, tuple))` on a nonempty array frame. -/
def lastIsArray (data : List Val) : Bool :=
  match data.getLast? with
  | some (.varr _) => true
  | _ => false

/-- Model of `Connection._process_reply(data)`: a dict frame goes through
`_check_status`; an array frame whose last element is itself an array is
cached as `self._meta_info` (and yields nothing); any other array frame
is decoded as a row against the cached metadata.  The returned pair is
the new `self._meta_info` and the value `_process_reply` returns. -/
def process_reply (meta : Option (List Val)) :
    Frame → Except PyErr (Option (List Val) × Option Row)
  | .status code message => do
      check_status code message
      .ok (meta, none)
  | .arr data =>
      if !data.isEmpty && lastIsArray data then
        .ok (some data, none)
      else do
        let row ← construct_row meta data
        .ok (meta, some row)

/-- The frame loop of `Connection._recv`: each decoded frame goes
through `_process_reply`, and the reply is yielded only when truthy
(`if reply:`), so `None` and the empty dict are dropped.  A raise ends
the generator.  Returns the rows yielded in order, the final
`self._meta_info`, and the exception if one was raised. -/
def recv_loop (meta : Option (List Val)) :
    List Frame → List Row × Option (List Val) × Option PyErr
  | [] => ([], meta, none)
  | f :: rest =>
      match process_reply meta f with
      | .error e => ([], meta, some e)
      | .ok (meta', none) => recv_loop meta' rest
      | .ok (meta', some row) =>
          if row.isEmpty then recv_loop meta' rest
          else
            let (rows, mF, err) := recv_loop meta' rest
            (row :: rows, mF, err)

/-- Model of `Connection._recv()`: `self._meta_info` is reset to `None`, then
every frame decoded from the socket is processed in order. -/
def recv (frames : List Frame) : List Row × Option PyErr :=
  let (rows, _, err) := recv_loop none frames
  (rows, err)

end Connection

section ReplyExamples

open Connection

example :
    recv [.arr [.varr [.vstr "a", .vstr "int"]],
          .arr [.vint 7],
          .status (some 0) none]
      = ([[(.vstr "a", .vint 7)]], none) := rfl

example :
    recv [.status (some 4) (some "no such db")]
      = ([], some (.opError 4 "no such db")) := rfl

example :
    recv [.arr [.varr [.vstr "a", .vstr "int"]],
          .arr [.vint 7],
          .status (some 5) none,
          .arr [.vint 9]]
      = ([[(.vstr "a", .vint 7)]], some (.opError 5 "Unknown error.")) := rfl

example : recv [.status none none]
    = ([], some (.opError 1 "Unknown error.")) := rfl

end ReplyExamples

/-- The pool's view of one `Connection` object: an identity, the
`closed` property (`self._socket is None`), and whether its `close()`
call raises. -/
structure Conn where
  id : Nat
  closed : Bool
  closeFails : Bool
deriving DecidableEq, Repr

/-- Model of `conn.close()` as the pool observes it: it either succeeds or
raises. -/
def Conn.close (c : Conn) : Except Unit Unit :=
  if c.closeFails then .error () else .ok ()

/-- Model of `ConnectionPool` state: `self._maxsize`, `self._size` (connections
constructed so far), and the FIFO `self._pool` queue of idle
connections. -/
structure Pool where
  maxsize : Nat
  size : Nat
  queue : List Conn
deriving DecidableEq, Repr

/-- A freshly constructed `ConnectionPool(maxsize)` (`maxsize` is an
integer by typing; a non-integer raises `TypeError` before any state
exists). -/
def Pool.init (maxsize : Nat) : Pool :=
  { maxsize := maxsize, size := 0, queue := [] }

/-- The outcome of `ConnectionPool.get()` for the single caller being
modelled: a connection was handed out, the call blocked on the empty
queue, or `_create_connection` raised. -/
inductive GetRes where
  | got (c : Conn)
  | blocked
  | failed
deriving DecidableEq, Repr

/-- Model of `ConnectionPool.get()`.  When `self._size >= self._maxsize or
self._pool.qsize()`, take from the queue (`Queue.get()` blocks if it is
empty); otherwise increment `self._size` and construct a connection,
undoing the increment and re-raising if construction fails.  `fresh` is
the result `_create_connection` would produce. -/
def Pool.get (p : Pool) (fresh : Except Unit Conn) : GetRes × Pool :=
  if p.size ≥ p.maxsize || !p.queue.isEmpty then
    match p.queue with
    | [] => (.blocked, p)
    | c :: rest => (.got c, { p with queue := rest })
  else
    match fresh with
    | .ok c => (.got c, { p with size := p.size + 1 })
    | .error _ => (.failed, { p with size := p.size + 1 - 1 })

/-- Model of `ConnectionPool.put(item)`: enqueue at the back of the FIFO. -/
def Pool.put (p : Pool) (c : Conn) : Pool :=
  { p with queue := p.queue ++ [c] }

/-- The drain loop of `ConnectionPool.closeall()`: each idle connection
is dequeued and closed inside `try: ... except Exception: pass`, so a
failing close is swallowed and the loop continues.  Returns the
connections whose `close()` was invoked and whether the loop itself
raised. -/
def closeall_drain : List Conn → List Conn × Bool
  | [] => ([], false)
  | c :: rest =>
      match c.close with
      | .ok _ =>
          let (cs, raised) := closeall_drain rest
          (c :: cs, raised)
      | .error _ =>
          let (cs, raised) := closeall_drain rest
          (c :: cs, raised)

/-- Model of `ConnectionPool.closeall()`: drain the idle queue, closing each
connection; returns the new pool state, the closed connections, and
whether the call raised. -/
def Pool.closeall (p : Pool) : Pool × List Conn × Bool :=
  let (cs, raised) := closeall_drain p.queue
  ({ p with queue := [] }, cs, raised)

/-- One pool operation of the sequences claim C3 quantifies over. -/
inductive PoolOp where
  | get (fresh : Except Unit Conn)
  | put (c : Conn)
  | closeall

/-- The pool-state effect of one operation. -/
def Pool.step (p : Pool) : PoolOp → Pool
  | .get fresh => (p.get fresh).2
  | .put c => p.put c
  | .closeall => (p.closeall).1

/-- Run a sequence of pool operations. -/
def Pool.run (p : Pool) (ops : List PoolOp) : Pool :=
  ops.foldl Pool.step p

/-- How the scoped `ConnectionPool.connection()` block ends: normal
exit, the caller's exception propagating, the initial `get()` blocking,
or construction failing inside `get()`.  Each constructor carries the
resulting pool state. -/
inductive ScopeOut where
  | ok (p : Pool)
  | err (p : Pool)
  | blocked
  | getFailed (p : Pool)
deriving DecidableEq, Repr

/-- Model of `ConnectionPool.connection()`: `conn = self.get()`; yield `conn` to
the caller's protected block (modelled by `body`, which returns whether
the block raised and the connection's state on exit); on an exception
with `conn.closed`, set `conn = None`, run `self.closeall()` and
re-raise; the `finally` clause re-queues `conn` only when it is not
`None` and not closed. -/
def Pool.connection_scope (p : Pool) (fresh : Except Unit Conn)
    (body : Conn → Bool × Conn) : ScopeOut :=
  match p.get fresh with
  | (.blocked, _) => .blocked
  | (.failed, p') => .getFailed p'
  | (.got c, p') =>
      let (raised, c') := body c
      if raised then
        if c'.closed then
          .err (p'.closeall).1
        else
          .err (p'.put c')
      else
        if c'.closed then .ok p'
        else .ok (p'.put c')

section PoolExamples

example :
    Pool.get (Pool.init 1) (.ok ⟨0, false, false⟩)
      = (.got ⟨0, false, false⟩, ⟨1, 1, []⟩) := rfl

example : Pool.get ⟨1, 1, []⟩ (.ok ⟨1, false, false⟩) = (.blocked, ⟨1, 1, []⟩) :=
  rfl

example : Pool.get (Pool.init 1) (.error ()) = (.failed, ⟨1, 0, []⟩) := rfl

example :
    Pool.closeall ⟨2, 2, [⟨0, false, true⟩, ⟨1, false, false⟩]⟩
      = (⟨2, 2, []⟩, [⟨0, false, true⟩, ⟨1, false, false⟩], false) := rfl

example :
    Pool.connection_scope ⟨2, 2, [⟨0, false, false⟩, ⟨1, false, false⟩]⟩
      (.error ()) (fun c => (true, { c with closed := true }))
      = .err ⟨2, 2, []⟩ := rfl

example :
    Pool.connection_scope ⟨2, 2, [⟨0, false, false⟩, ⟨1, false, false⟩]⟩
      (.error ()) (fun c => (true, c))
      = .err ⟨2, 2, [⟨1, false, false⟩, ⟨0, false, false⟩]⟩ := rfl

end PoolExamples

example : from_primitive (.vint 5) (.vstr "date") = .ok (.vdt 5 0 true) := rfl
example : from_primitive (.vint 0) (.vstr "date") = .ok .vnone := rfl
example : from_primitive (.vbytes "hi") (.vstr "text") = .ok (.vstr "hi") := rfl
example : from_primitive (.vint 7) (.vstr "integer") = .ok (.vint 7) := rfl
example : from_utc_timestamp (.vint (to_utc_timestamp ⟨0, 0, true⟩))
    = .ok .vnone := rfl

/-- The metadata frame announcing the given `(name, type-name)` columns. -/
def metaOf (cols : List (String × String)) : List Val :=
  cols.map fun nt => .varr [.vstr nt.1, .vstr nt.2]

/-! Helper lemmas about the pool. -/

theorem closeall_drain_eq (q : List Conn) : closeall_drain q = (q, false) := by
  induction q with
  | nil => rfl
  | cons c rest ih =>
      unfold closeall_drain
      cases h : c.close <;> simp [ih]

theorem Pool.closeall_eq (p : Pool) :
    p.closeall = ({ p with queue := [] }, p.queue, false) := by
  simp [Pool.closeall, closeall_drain_eq]

theorem Pool.get_dequeue (p : Pool) (fresh : Except Unit Conn) (c : Conn)
    (rest : List Conn) (h : p.queue = c :: rest) :
    p.get fresh = (.got c, { p with queue := rest }) := by
  unfold Pool.get
  rw [h]
  simp

theorem Pool.get_create (p : Pool) (c : Conn) (hq : p.queue = [])
    (hlt : p.size < p.maxsize) :
    p.get (.ok c) = (.got c, { p with size := p.size + 1 }) := by
  unfold Pool.get
  rw [hq]
  simp [Nat.not_le.mpr hlt]

theorem Pool.get_create_fail (p : Pool) (hq : p.queue = [])
    (hlt : p.size < p.maxsize) :
    p.get (.error ()) = (.failed, p) := by
  obtain ⟨mx, sz, q⟩ := p
  simp only at hq hlt
  subst hq
  unfold Pool.get
  simp [Nat.not_le.mpr hlt]

theorem Pool.get_blocked (p : Pool) (fresh : Except Unit Conn)
    (hq : p.queue = []) (hfull : p.maxsize ≤ p.size) :
    p.get fresh = (.blocked, p) := by
  unfold Pool.get
  rw [hq]
  simp [hfull]

theorem Pool.get_snd_maxsize (p : Pool) (fresh : Except Unit Conn) :
    (p.get fresh).2.maxsize = p.maxsize := by
  unfold Pool.get
  split
  · split <;> rfl
  · cases fresh <;> rfl

theorem Pool.get_snd_size (p : Pool) (fresh : Except Unit Conn) :
    (p.get fresh).2.size = p.size
    ∨ ((p.get fresh).2.size = p.size + 1 ∧ p.size < p.maxsize) := by
  unfold Pool.get
  split
  · split
    · exact Or.inl rfl
    · exact Or.inl rfl
  · rename_i hcond
    simp only [Bool.or_eq_true, decide_eq_true_eq, not_or, ge_iff_le,
      Nat.not_le] at hcond
    cases fresh
    · exact Or.inl rfl
    · exact Or.inr ⟨rfl, hcond.1⟩

theorem Pool.step_maxsize (p : Pool) (op : PoolOp) :
    (p.step op).maxsize = p.maxsize := by
  cases op with
  | get g => exact Pool.get_snd_maxsize p g
  | put c => rfl
  | closeall => simp [Pool.step, Pool.closeall_eq]

theorem Pool.step_size_le (p : Pool) (op : PoolOp) :
    p.size ≤ (p.step op).size := by
  cases op with
  | get g =>
      rcases Pool.get_snd_size p g with h | ⟨h, _⟩ <;>
        simp [Pool.step, h]
  | put c => simp [Pool.step, Pool.put]
  | closeall => simp [Pool.step, Pool.closeall_eq]

theorem Pool.step_inv (p : Pool) (op : PoolOp) (h : p.size ≤ p.maxsize) :
    (p.step op).size ≤ (p.step op).maxsize := by
  rw [Pool.step_maxsize]
  cases op with
  | get g =>
      rcases Pool.get_snd_size p g with h' | ⟨h', hlt⟩ <;>
        simp [Pool.step, h'] <;> omega
  | put c => simpa [Pool.step, Pool.put]
  | closeall => simpa [Pool.step, Pool.closeall_eq]

theorem Pool.run_inv (ops : List PoolOp) :
    ∀ p : Pool, p.size ≤ p.maxsize → (p.run ops).size ≤ (p.run ops).maxsize := by
  induction ops with
  | nil => intro p h; exact h
  | cons op rest ih =>
      intro p h
      exact ih (p.step op) (Pool.step_inv p op h)

theorem Pool.run_maxsize (ops : List PoolOp) :
    ∀ p : Pool, (p.run ops).maxsize = p.maxsize := by
  induction ops with
  | nil => intro p; rfl
  | cons op rest ih =>
      intro p
      rw [Pool.run, List.foldl_cons, ← Pool.run, ih, Pool.step_maxsize]

/-- Claim C3: starting from a freshly constructed pool with maxsize `N`,
the constructed-count stays `≤ N` across every sequence of get/put/
closeall operations; `get` hands out the front idle connection whenever
one is queued, constructs a new connection exactly when the queue is
empty and the count is below `N` (incrementing the count), blocks with
the state unchanged when the queue is empty and the count has reached
`N`, and on construction failure restores the count and leaves the
state unchanged while the error propagates. -/
theorem claim3 (N : Nat) (ops : List PoolOp) (p : Pool) (c : Conn)
    (rest : List Conn) (fresh : Except Unit Conn) :
    ((Pool.init N).run ops).size ≤ N
    ∧ (p.queue = c :: rest →
        p.get fresh = (.got c, { p with queue := rest }))
    ∧ (p.queue = [] → p.size < p.maxsize →
        p.get (.ok c) = (.got c, { p with size := p.size + 1 }))
    ∧ (p.queue = [] → p.size < p.maxsize →
        p.get (.error ()) = (.failed, p))
    ∧ (p.queue = [] → p.maxsize ≤ p.size →
        p.get fresh = (.blocked, p)) := by
  refine ⟨?_, Pool.get_dequeue p fresh c rest,
    Pool.get_create p c, Pool.get_create_fail p, Pool.get_blocked p fresh⟩
  have h := Pool.run_inv ops (Pool.init N) (Nat.zero_le N)
  rwa [Pool.run_maxsize ops (Pool.init N)] at h

/-- Witness for C3 at concrete inputs: a fresh pool of maxsize 2 after
two successful gets and a put stays within bounds; each of the four
`get` behaviours is exercised on a concrete pool state. -/
theorem claim3_witness :
    ((Pool.init 2).run
        [.get (.ok ⟨0, false, false⟩), .get (.ok ⟨1, false, false⟩),
         .put ⟨0, false, false⟩]).size ≤ 2
    ∧ (Pool.get ⟨2, 2, [⟨0, false, false⟩]⟩ (.error ())
        = (.got ⟨0, false, false⟩, ⟨2, 2, []⟩))
    ∧ (Pool.get ⟨2, 1, []⟩ (.ok ⟨1, false, false⟩)
        = (.got ⟨1, false, false⟩, ⟨2, 2, []⟩))
    ∧ (Pool.get ⟨2, 1, []⟩ (.error ()) = (.failed, ⟨2, 1, []⟩))
    ∧ (Pool.get ⟨2, 2, []⟩ (.ok ⟨1, false, false⟩) = (.blocked, ⟨2, 2, []⟩)) :=
  ⟨(claim3 2 [.get (.ok ⟨0, false, false⟩), .get (.ok ⟨1, false, false⟩),
      .put ⟨0, false, false⟩] ⟨2, 2, []⟩ ⟨0, false, false⟩ [] (.error ())).1,
   (claim3 2 [] ⟨2, 2, [⟨0, false, false⟩]⟩ ⟨0, false, false⟩ []
      (.error ())).2.1 rfl,
   (claim3 2 [] ⟨2, 1, []⟩ ⟨1, false, false⟩ [] (.ok ⟨1, false, false⟩)).2.2.1
      rfl (by decide),
   (claim3 2 [] ⟨2, 1, []⟩ ⟨1, false, false⟩ [] (.error ())).2.2.2.1
      rfl (by decide),
   (claim3 2 [] ⟨2, 2, []⟩ ⟨1, false, false⟩ [] (.ok ⟨1, false, false⟩)).2.2.2.2
      rfl (by decide)⟩

/-- Claim C7: `closeall` drains the idle queue one connection at a time,
invoking `close` on every idle connection (a failing close is swallowed,
so the rest are still closed), never raises itself, and leaves the idle
queue empty. -/
theorem claim7 (p : Pool) :
    p.closeall = ({ p with queue := [] }, p.queue, false) :=
  Pool.closeall_eq p

/-- Counterexample to C8 as stated: the caller's block exits cleanly but
has closed the connection; the scoped-acquisition path then discards the
connection instead of returning it to the idle queue, so "if the block
exits cleanly ... the connection is returned to the idle queue exactly
once" fails on this input. -/
theorem claim8_counterexample :
    Pool.connection_scope ⟨1, 1, [⟨0, false, false⟩]⟩ (.error ())
        (fun c => (false, { c with closed := true }))
      = .ok ⟨1, 1, []⟩
    ∧ ¬ ∃ c' : Conn,
        Pool.connection_scope ⟨1, 1, [⟨0, false, false⟩]⟩ (.error ())
            (fun c => (false, { c with closed := true }))
          = .ok ⟨1, 1, [c']⟩ := by
  refine ⟨rfl, ?_⟩
  rintro ⟨c', h⟩
  rw [show Pool.connection_scope ⟨1, 1, [⟨0, false, false⟩]⟩ (.error ())
        (fun c => (false, { c with closed := true })) = .ok ⟨1, 1, []⟩
      from rfl] at h
  simp at h

/-- Claim C8 as amended: under scoped acquisition, if the caller's block
raises while the connection is dead, that connection is discarded, every
idle connection is closed and removed, and the exception propagates; if
the block raises while the connection is live, the connection is
returned to the idle queue exactly once and the exception propagates;
if the block exits cleanly *with the connection still live*, it is
returned to the idle queue exactly once; if the block exits cleanly with
the connection dead, it is discarded without touching the other idle
connections.  A dead connection is never re-queued. -/
theorem claim8_amended (p : Pool) (c c' : Conn) (rest : List Conn)
    (fresh : Except Unit Conn) (body : Conn → Bool × Conn)
    (hq : p.queue = c :: rest) :
    (body c = (true, c') → c'.closed = true →
      Pool.connection_scope p fresh body = .err ⟨p.maxsize, p.size, []⟩
      ∧ (Pool.closeall { p with queue := rest }).2.1 = rest)
    ∧ (body c = (true, c') → c'.closed = false →
      Pool.connection_scope p fresh body
        = .err { p with queue := rest ++ [c'] })
    ∧ (body c = (false, c') → c'.closed = false →
      Pool.connection_scope p fresh body
        = .ok { p with queue := rest ++ [c'] })
    ∧ (body c = (false, c') → c'.closed = true →
      Pool.connection_scope p fresh body = .ok { p with queue := rest }) := by
  have hget := Pool.get_dequeue p fresh c rest hq
  refine ⟨fun hb hc => ⟨?_, ?_⟩, fun hb hc => ?_, fun hb hc => ?_,
    fun hb hc => ?_⟩ <;>
    simp [Pool.connection_scope, hget, hb, hc, Pool.closeall_eq, Pool.put]

/-- Witness for C8 (amended) at a concrete input: the protected block
raises after the connection died; the dead connection is discarded, the
remaining idle connection has its `close` invoked and is removed, and
the exception propagates. -/
theorem claim8_amended_witness :
    (Pool.connection_scope ⟨2, 2, [⟨0, false, false⟩, ⟨1, false, true⟩]⟩
        (.error ()) (fun c => (true, { c with closed := true }))
      = .err ⟨2, 2, []⟩)
    ∧ (Pool.closeall ⟨2, 2, [⟨1, false, true⟩]⟩).2.1 = [⟨1, false, true⟩] :=
  (claim8_amended ⟨2, 2, [⟨0, false, false⟩, ⟨1, false, true⟩]⟩
      ⟨0, false, false⟩ ⟨0, true, false⟩ [⟨1, false, true⟩] (.error ())
      (fun c => (true, { c with closed := true })) rfl).1 rfl rfl

/-- Claim C9 (implicit): discarding a dead connection through the
scoped-acquisition path leaves the constructed-count untouched (the
resulting pool still records `p.size` constructed connections although
one is gone for good); no pool operation ever nets a decrease of the
count (the decrement inside `get` only undoes the increment of a failed
construction); and once the count has reached maxsize with the idle
queue empty — as after discarding all maxsize connections — every
subsequent `get` blocks, with the state unchanged, so it blocks
forever. -/
theorem claim9 (p q : Pool) (c c' : Conn) (rest : List Conn)
    (fresh fresh' : Except Unit Conn) (body : Conn → Bool × Conn)
    (op : PoolOp)
    (hq : p.queue = c :: rest) (hbody : body c = (true, c'))
    (hdead : c'.closed = true) :
    Pool.connection_scope p fresh body = .err ⟨p.maxsize, p.size, []⟩
    ∧ p.size ≤ (p.step op).size
    ∧ (q.queue = [] → q.maxsize ≤ q.size → q.get fresh' = (.blocked, q)) := by
  refine ⟨?_, Pool.step_size_le p op, Pool.get_blocked q fresh'⟩
  have hget := Pool.get_dequeue p fresh c rest hq
  simp [Pool.connection_scope, hget, hbody, hdead, Pool.closeall_eq]

/-- Witness for C9 at a concrete input: a pool of maxsize 1 whose only
connection dies inside the scoped block ends with count 1 and an empty
queue, and `get` on that exhausted pool blocks with the state
unchanged. -/
theorem claim9_witness :
    Pool.connection_scope ⟨1, 1, [⟨0, false, false⟩]⟩ (.error ())
        (fun c => (true, { c with closed := true }))
      = .err ⟨1, 1, []⟩
    ∧ (⟨1, 1, [⟨0, false, false⟩]⟩ : Pool).size
        ≤ ((⟨1, 1, [⟨0, false, false⟩]⟩ : Pool).step
            (.get (.ok ⟨1, false, false⟩))).size
    ∧ (Pool.get ⟨1, 1, []⟩ (.ok ⟨1, false, false⟩)
        = (.blocked, ⟨1, 1, []⟩)) := by
  have h := claim9 ⟨1, 1, [⟨0, false, false⟩]⟩ ⟨1, 1, []⟩
    ⟨0, false, false⟩ ⟨0, true, false⟩ [] (.error ())
    (.ok ⟨1, false, false⟩) (fun c => (true, { c with closed := true }))
    (.get (.ok ⟨1, false, false⟩)) rfl rfl rfl
  exact ⟨h.1, h.2.1, h.2.2 rfl (by decide)⟩

/-- Counterexample to C4 as stated: the claim says a falsy wire value in
a date-typed column is "returned as-is with no conversion", but
`from_utc_timestamp` falls off its `if` and returns `None`: decoding the
falsy integer `0` under column type `date` yields `None`, not `0`. -/
theorem claim4_counterexample :
    from_primitive (.vint 0) (.vstr "date") = .ok .vnone
    ∧ (Except.ok Val.vnone : Except PyErr Val) ≠ .ok (.vint 0) := by
  refine ⟨rfl, fun h => ?_⟩
  injection h with h'
  cases h'

/-- Claim C4 as amended: `from_primitive` applies the registered decode
converter when the column type name has one and returns the value
unchanged otherwise (including when the type key is not a string at
all); for the date types a truthy numeric wire value becomes a
UTC-aware datetime and a falsy wire value yields `None` (not the value
itself); for the text types a non-empty value is normalized to decoded
text and an empty value is returned as-is. -/
theorem claim4_amended (v w : Val) (t : String) (n : Int) :
    ((∀ s, w ≠ .vstr s) → from_primitive v w = .ok v)
    ∧ (t ∉ SQLITE_DATE_TYPES → t ∉ SQLITE_TEXT_TYPES →
        from_primitive v (.vstr t) = .ok v)
    ∧ (t ∈ SQLITE_DATE_TYPES → v.truthy = true → v.toNum? = some n →
        from_primitive v (.vstr t) = .ok (.vdt n 0 true))
    ∧ (t ∈ SQLITE_DATE_TYPES → v.truthy = false →
        from_primitive v (.vstr t) = .ok .vnone)
    ∧ (t ∈ SQLITE_TEXT_TYPES → v.truthy = true →
        from_primitive v (.vstr t) = .ok (to_unicode v))
    ∧ (t ∈ SQLITE_TEXT_TYPES → v.truthy = false →
        from_primitive v (.vstr t) = .ok v) := by
  have htext : t ∈ SQLITE_TEXT_TYPES → t ∉ SQLITE_DATE_TYPES := by
    intro h
    simp only [SQLITE_TEXT_TYPES, List.mem_cons, List.not_mem_nil,
      or_false] at h
    rcases h with rfl | rfl <;> decide
  refine ⟨?_, ?_, ?_, ?_, ?_, ?_⟩
  · intro hw
    cases w with
    | vstr s => exact absurd rfl (hw s)
    | vint n => rfl
    | vbytes s => rfl
    | vnone => rfl
    | vdt a b c => rfl
    | varr es => rfl
  · intro hd ht
    simp [from_primitive, from_primitive_converters, hd, ht]
  · intro hd htr hnum
    simp [from_primitive, from_primitive_converters, hd,
      from_utc_timestamp, htr, hnum]
  · intro hd hfa
    simp [from_primitive, from_primitive_converters, hd,
      from_utc_timestamp, hfa]
  · intro ht htr
    simp [from_primitive, from_primitive_converters, htext ht, ht,
      from_text, htr]
  · intro ht hfa
    simp [from_primitive, from_primitive_converters, htext ht, ht,
      from_text, hfa]

/-- Witness for C4 (amended) at concrete inputs: a non-string type key
and an unregistered name leave the value alone; `17` under `datetime`
becomes the UTC-aware datetime at epoch second 17; `0` under `datetime`
yields `None`; a byte string under `text` is decoded; the empty string
under `text` comes back as-is. -/
theorem claim4_amended_witness :
    from_primitive (.vint 3) .vnone = .ok (.vint 3)
    ∧ from_primitive (.vint 3) (.vstr "integer") = .ok (.vint 3)
    ∧ from_primitive (.vint 17) (.vstr "datetime") = .ok (.vdt 17 0 true)
    ∧ from_primitive (.vint 0) (.vstr "datetime") = .ok .vnone
    ∧ from_primitive (.vbytes "abc") (.vstr "text") = .ok (.vstr "abc")
    ∧ from_primitive (.vstr "") (.vstr "text") = .ok (.vstr "") := by
  refine ⟨?_, ?_, ?_, ?_, ?_, ?_⟩
  · exact (claim4_amended (.vint 3) .vnone "x" 0).1
      (fun s h => by cases h)
  · exact (claim4_amended (.vint 3) .vnone "integer" 0).2.1
      (by decide) (by decide)
  · exact (claim4_amended (.vint 17) .vnone "datetime" 17).2.2.1
      (by decide) rfl rfl
  · exact (claim4_amended (.vint 0) .vnone "datetime" 0).2.2.2.1
      (by decide) rfl
  · exact (claim4_amended (.vbytes "abc") .vnone "text" 0).2.2.2.2.1
      (by decide) rfl
  · exact (claim4_amended (.vstr "") .vnone "text" 0).2.2.2.2.2
      (by decide) rfl

/-- Counterexample to C5 as stated: the UTC-aware datetime at the epoch
(second 0) encodes to the timestamp `0`, which is falsy, so decoding it
back yields `None` rather than a datetime equal to the original to the
nearest second. -/
theorem claim5_counterexample :
    from_utc_timestamp (.vint (to_utc_timestamp ⟨0, 0, true⟩)) = .ok .vnone
    ∧ (Except.ok Val.vnone : Except PyErr Val) ≠ .ok (.vdt 0 0 true) := by
  refine ⟨rfl, fun h => ?_⟩
  injection h with h'
  cases h'

/-- Claim C5 as amended: for every UTC-aware datetime whose
whole-second UTC timestamp is nonzero, encoding through the registry's
to-primitive converter and decoding back through the datetime column
converter yields the original datetime truncated to the second (still
UTC-aware). -/
theorem claim5_amended (d : PyDateTime) (_haware : d.utcAware = true)
    (hnz : to_utc_timestamp d ≠ 0) :
    from_utc_timestamp (.vint (to_utc_timestamp d))
      = .ok (.vdt d.sec 0 true) := by
  have h : d.sec ≠ 0 := hnz
  simp [from_utc_timestamp, Val.truthy, to_utc_timestamp, Val.toNum?, h]

/-- Witness for C5 (amended) at a concrete input: the UTC-aware datetime
at epoch second 5 with 123456 microseconds round-trips to epoch second 5
with the sub-second part truncated. -/
theorem claim5_amended_witness :
    from_utc_timestamp (.vint (to_utc_timestamp ⟨5, 123456, true⟩))
      = .ok (.vdt 5 0 true) :=
  claim5_amended ⟨5, 123456, true⟩ rfl (by decide)

/-! Helper lemmas about the reply interpreter. -/

theorem list_isEmpty_false {α : Type} (l : List α) :
    l.isEmpty = false ↔ l ≠ [] := by
  cases l <;> simp

namespace Connection

theorem recv_loop_cons_error {meta : Option (List Val)} {f : Frame}
    {e : PyErr} (l : List Frame) (hpr : process_reply meta f = .error e) :
    recv_loop meta (f :: l) = ([], meta, some e) := by
  simp only [recv_loop, hpr]

theorem recv_loop_cons_none {meta meta' : Option (List Val)} {f : Frame}
    (l : List Frame) (hpr : process_reply meta f = .ok (meta', none)) :
    recv_loop meta (f :: l) = recv_loop meta' l := by
  simp only [recv_loop, hpr]

theorem recv_loop_cons_emptyrow {meta meta' : Option (List Val)} {f : Frame}
    {row : Row} (l : List Frame)
    (hpr : process_reply meta f = .ok (meta', some row))
    (hrow : row.isEmpty = true) :
    recv_loop meta (f :: l) = recv_loop meta' l := by
  simp only [recv_loop, hpr, hrow, if_true]

theorem recv_loop_cons_row {meta meta' : Option (List Val)} {f : Frame}
    {row : Row} (l : List Frame)
    (hpr : process_reply meta f = .ok (meta', some row))
    (hrow : row.isEmpty = false) :
    recv_loop meta (f :: l)
      = (row :: (recv_loop meta' l).1, (recv_loop meta' l).2.1,
         (recv_loop meta' l).2.2) := by
  simp only [recv_loop, hpr, hrow, Bool.false_eq_true, if_false]

theorem recv_loop_append (xs : List Frame) :
    ∀ (meta mF : Option (List Val)) (rows : List Row) (ys : List Frame),
    recv_loop meta xs = (rows, mF, none) →
    recv_loop meta (xs ++ ys)
      = (rows ++ (recv_loop mF ys).1, (recv_loop mF ys).2.1,
         (recv_loop mF ys).2.2) := by
  induction xs with
  | nil =>
      intro meta mF rows ys h
      injection h with h1 h2
      injection h2 with h2 h3
      subst h1
      subst h2
      simp [recv_loop]
  | cons f rest ih =>
      intro meta mF rows ys h
      cases hpr : process_reply meta f with
      | error e =>
          rw [recv_loop_cons_error rest hpr] at h
          injection h with h1 h2
          injection h2 with h2 h3
          cases h3
      | ok pr =>
          obtain ⟨meta', orow⟩ := pr
          cases orow with
          | none =>
              rw [recv_loop_cons_none rest hpr] at h
              rw [List.cons_append, recv_loop_cons_none (rest ++ ys) hpr]
              exact ih meta' mF rows ys h
          | some row =>
              cases hrow : row.isEmpty with
              | true =>
                  rw [recv_loop_cons_emptyrow rest hpr hrow] at h
                  rw [List.cons_append,
                    recv_loop_cons_emptyrow (rest ++ ys) hpr hrow]
                  exact ih meta' mF rows ys h
              | false =>
                  rw [recv_loop_cons_row rest hpr hrow] at h
                  injection h with h1 h2
                  injection h2 with h2 h3
                  have hC : recv_loop meta' rest
                      = ((recv_loop meta' rest).1, mF, none) := by
                    rw [← h2, ← h3]
                  rw [List.cons_append, recv_loop_cons_row (rest ++ ys) hpr hrow,
                    ih meta' mF (recv_loop meta' rest).1 ys hC]
                  simp [← h1]

theorem except_ok_bind {α β : Type} (a : α) (f : α → Except PyErr β) :
    (Except.ok a >>= f) = f a := rfl

theorem except_error_bind {α β : Type} (e : PyErr)
    (f : α → Except PyErr β) :
    ((Except.error e : Except PyErr α) >>= f) = Except.error e := rfl

theorem construct_row_go_length :
    ∀ (l : List (Val × Val)) (row : Row),
    construct_row_go l = .ok row → row.length = l.length := by
  intro l
  induction l with
  | nil =>
      intro row h
      injection h with h1
      rw [← h1]
  | cons q rest ih =>
      intro row h
      obtain ⟨mv, value⟩ := q
      simp only [construct_row_go] at h
      cases h1 : unpackPair mv with
      | error e =>
          rw [h1, except_error_bind] at h
          exact Except.noConfusion h
      | ok kt =>
          rw [h1, except_ok_bind] at h
          obtain ⟨cn, ct⟩ := kt
          dsimp only at h
          cases h2 : from_primitive value ct with
          | error e =>
              rw [h2, except_error_bind] at h
              exact Except.noConfusion h
          | ok v =>
              rw [h2, except_ok_bind] at h
              cases h3 : construct_row_go rest with
              | error e =>
                  rw [h3, except_error_bind] at h
                  exact Except.noConfusion h
              | ok r =>
                  rw [h3, except_ok_bind] at h
                  injection h with h4
                  rw [← h4, List.length_cons, List.length_cons, ih r h3]

theorem construct_row_go_keys :
    ∀ (l : List (Val × Val)) (row : Row),
    construct_row_go l = .ok row →
    ∀ p ∈ l, ∃ kt v, unpackPair p.1 = .ok kt ∧ (kt.1, v) ∈ row := by
  intro l
  induction l with
  | nil =>
      intro row h p hp
      cases hp
  | cons q rest ih =>
      intro row h p hp
      obtain ⟨mv, value⟩ := q
      simp only [construct_row_go] at h
      cases h1 : unpackPair mv with
      | error e =>
          rw [h1, except_error_bind] at h
          exact Except.noConfusion h
      | ok kt =>
          rw [h1, except_ok_bind] at h
          obtain ⟨cn, ct⟩ := kt
          dsimp only at h
          cases h2 : from_primitive value ct with
          | error e =>
              rw [h2, except_error_bind] at h
              exact Except.noConfusion h
          | ok v =>
              rw [h2, except_ok_bind] at h
              cases h3 : construct_row_go rest with
              | error e =>
                  rw [h3, except_error_bind] at h
                  exact Except.noConfusion h
              | ok r =>
                  rw [h3, except_ok_bind] at h
                  injection h with h4
                  cases hp with
                  | head =>
                      refine ⟨(cn, ct), v, h1, ?_⟩
                      rw [← h4]
                      exact List.mem_cons_self _ _
                  | tail _ hp' =>
                      obtain ⟨kt', v', h5, h6⟩ := ih r h3 p hp'
                      refine ⟨kt', v', h5, ?_⟩
                      rw [← h4]
                      exact List.mem_cons_of_mem _ h6

theorem construct_row_some (m : List Val) (data : List Val) :
    construct_row (some m) data = construct_row_go (m.zip data) := rfl

theorem lastIsArray_cons_cons (a b : Val) (l : List Val) :
    lastIsArray (a :: b :: l) = lastIsArray (b :: l) := by
  unfold lastIsArray
  rw [List.getLast?_cons_cons]

theorem process_reply_meta (meta : Option (List Val)) (data : List Val)
    (hne : data ≠ []) (hlast : lastIsArray data = true) :
    process_reply meta (.arr data) = .ok (some data, none) := by
  have hc : (!data.isEmpty && lastIsArray data) = true := by
    simp [Bool.and_eq_true, Bool.not_eq_true', list_isEmpty_false, hne,
      hlast]
  simp [process_reply, hc]

theorem process_reply_row (meta : Option (List Val)) (data : List Val)
    (hc : (!data.isEmpty && lastIsArray data) = false) :
    process_reply meta (.arr data)
      = (construct_row meta data).map fun row => (meta, some row) := by
  simp only [process_reply, hc, Bool.false_eq_true, if_false]
  cases hcr : construct_row meta data with
  | error e => rfl
  | ok row => rfl

end Connection

theorem mem_zip_left {α β : Type} :
    ∀ (m : List α) (r : List β) (a : α), a ∈ m → m.length ≤ r.length →
    ∃ b, (a, b) ∈ m.zip r := by
  intro m
  induction m with
  | nil =>
      intro r a ha
      cases ha
  | cons x m' ih =>
      intro r a ha hlen
      cases r with
      | nil => simp at hlen
      | cons y r' =>
          rw [List.zip_cons_cons]
          cases ha with
          | head => exact ⟨y, List.mem_cons_self _ _⟩
          | tail _ ha' =>
              obtain ⟨b, hb⟩ := ih r' a ha'
                (Nat.le_of_succ_le_succ (by simpa using hlen))
              exact ⟨b, List.mem_cons_of_mem _ hb⟩

theorem metaOf_length (cols : List (String × String)) :
    (metaOf cols).length = cols.length := by
  simp [metaOf]

theorem metaOf_ne_nil (cols : List (String × String)) (h : cols ≠ []) :
    metaOf cols ≠ [] := by
  simp [metaOf, h]

theorem metaOf_lastIsArray :
    ∀ (cols : List (String × String)), cols ≠ [] →
    Connection.lastIsArray (metaOf cols) = true := by
  intro cols
  induction cols with
  | nil => intro h; cases h rfl
  | cons c rest ih =>
      intro _
      cases rest with
      | nil => rfl
      | cons d rest' =>
          have h2 := ih (List.cons_ne_nil d rest')
          simp only [metaOf, List.map_cons] at h2 ⊢
          rw [Connection.lastIsArray_cons_cons]
          exact h2

theorem recv_loop_rows (M : List Val) :
    ∀ (rows : List (List Val)),
    (∀ r ∈ rows, Connection.lastIsArray r = false) →
    (∀ r ∈ rows, ∃ row, Connection.construct_row (some M) r = .ok row
        ∧ row.isEmpty = false) →
    ∃ out : List Connection.Row,
      Connection.recv_loop (some M) (rows.map Frame.arr)
        = (out, some M, none)
      ∧ out.length = rows.length
      ∧ ∀ row ∈ out, ∃ r ∈ rows,
          Connection.construct_row (some M) r = .ok row := by
  intro rows
  induction rows with
  | nil =>
      intro _ _
      exact ⟨[], rfl, rfl, by intro row h; cases h⟩
  | cons r rest ih =>
      intro hshape hdec
      obtain ⟨row, hcr, hrow⟩ := hdec r (List.mem_cons_self _ _)
      have hc : (!r.isEmpty && Connection.lastIsArray r) = false := by
        simp [hshape r (List.mem_cons_self _ _)]
      have hpr : Connection.process_reply (some M) (.arr r)
          = .ok (some M, some row) := by
        rw [Connection.process_reply_row _ _ hc, hcr]
        rfl
      obtain ⟨out, hloop, hlen, hmem⟩ :=
        ih (fun x hx => hshape x (List.mem_cons_of_mem _ hx))
          (fun x hx => hdec x (List.mem_cons_of_mem _ hx))
      refine ⟨row :: out, ?_, by simp [hlen], ?_⟩
      · rw [List.map_cons, Connection.recv_loop_cons_row _ hpr hrow, hloop]
      · intro row' h
        cases h with
        | head => exact ⟨r, List.mem_cons_self _ _, hcr⟩
        | tail _ h' =>
            obtain ⟨x, hx, hcx⟩ := hmem row' h'
            exact ⟨x, List.mem_cons_of_mem _ hx, hcx⟩

/-- Claim C1: a reply stream of one metadata frame listing the given
columns, then `K` row frames (each carrying at least one decodable
value per column and not itself shaped like a metadata frame), then one
OK status frame, decodes to exactly `K` Row values, and every decoded
row has an entry for every column name listed in the metadata, its
values decoded per-column by the type registry. -/
theorem claim1 (cols : List (String × String)) (rows : List (List Val))
    (hne : cols ≠ [])
    (hlen : ∀ r ∈ rows, cols.length ≤ r.length)
    (hshape : ∀ r ∈ rows, Connection.lastIsArray r = false)
    (hdec : ∀ r ∈ rows, ∃ row,
        Connection.construct_row (some (metaOf cols)) r = .ok row) :
    ∃ out : List Connection.Row,
      Connection.recv
          (.arr (metaOf cols)
            :: (rows.map .arr ++ [.status (some Connection.OK) none]))
        = (out, none)
      ∧ out.length = rows.length
      ∧ ∀ row ∈ out, ∀ nt ∈ cols, ∃ v, (Val.vstr nt.1, v) ∈ row := by
  have hdec' : ∀ r ∈ rows, ∃ row,
      Connection.construct_row (some (metaOf cols)) r = .ok row
      ∧ row.isEmpty = false := by
    intro r hr
    obtain ⟨row, hcr⟩ := hdec r hr
    refine ⟨row, hcr, ?_⟩
    rw [Connection.construct_row_some] at hcr
    have hl := Connection.construct_row_go_length _ _ hcr
    rw [List.length_zip, metaOf_length] at hl
    have hmin : min cols.length r.length = cols.length :=
      Nat.min_eq_left (hlen r hr)
    rw [hmin] at hl
    cases row with
    | nil =>
        exfalso
        apply hne
        cases cols with
        | nil => rfl
        | cons a b => simp at hl
    | cons a b => rfl
  obtain ⟨out, hloop, hlength, hmem⟩ :=
    recv_loop_rows (metaOf cols) rows hshape hdec'
  have hprM : Connection.process_reply none (.arr (metaOf cols))
      = .ok (some (metaOf cols), none) :=
    Connection.process_reply_meta none (metaOf cols) (metaOf_ne_nil cols hne)
      (metaOf_lastIsArray cols hne)
  have hprS : Connection.process_reply (some (metaOf cols))
      (.status (some Connection.OK) none)
      = .ok (some (metaOf cols), none) := rfl
  have htail : Connection.recv_loop (some (metaOf cols))
      [Frame.status (some Connection.OK) none]
      = ([], some (metaOf cols), none) := by
    rw [Connection.recv_loop_cons_none _ hprS]
    rfl
  have happ := Connection.recv_loop_append (rows.map .arr)
    (some (metaOf cols)) (some (metaOf cols)) out
    [.status (some Connection.OK) none] hloop
  rw [htail] at happ
  refine ⟨out, ?_, hlength, ?_⟩
  · unfold Connection.recv
    rw [Connection.recv_loop_cons_none _ hprM, happ]
    simp
  · intro row hrow nt hnt
    obtain ⟨r, hr, hcr⟩ := hmem row hrow
    rw [Connection.construct_row_some] at hcr
    have hp : Val.varr [.vstr nt.1, .vstr nt.2] ∈ metaOf cols :=
      List.mem_map_of_mem _ hnt
    have hlenM : (metaOf cols).length ≤ r.length := by
      rw [metaOf_length]; exact hlen r hr
    obtain ⟨w, hw⟩ := mem_zip_left (metaOf cols) r _ hp hlenM
    obtain ⟨kt, v, hkt, hmemrow⟩ :=
      Connection.construct_row_go_keys _ _ hcr _ hw
    have hkt' : kt = (Val.vstr nt.1, Val.vstr nt.2) := by
      have : Except.ok (α := Val × Val) (ε := PyErr)
          (Val.vstr nt.1, Val.vstr nt.2) = .ok kt := by
        rw [← hkt]
        rfl
      injection this with h'
      exact h'.symm
    refine ⟨v, ?_⟩
    rw [hkt'] at hmemrow
    exact hmemrow

/-- Witness for C1 at a concrete input: two columns, two row frames,
then an OK status; exactly two rows come out and each has entries for
both column names. -/
theorem claim1_witness :
    ∃ out : List Connection.Row,
      Connection.recv
          (.arr (metaOf [("a", "int"), ("b", "text")])
            :: ([[Val.vint 1, Val.vstr "x"],
                 [Val.vint 2, Val.vstr "y"]].map .arr
              ++ [.status (some Connection.OK) none]))
        = (out, none)
      ∧ out.length = 2
      ∧ ∀ row ∈ out, ∀ nt ∈ [("a", "int"), ("b", "text")],
          ∃ v, (Val.vstr nt.1, v) ∈ row :=
  claim1 [("a", "int"), ("b", "text")]
    [[Val.vint 1, Val.vstr "x"], [Val.vint 2, Val.vstr "y"]]
    (by simp)
    (by intro r hr; simp at hr; rcases hr with rfl | rfl <;> decide)
    (by intro r hr; simp at hr; rcases hr with rfl | rfl <;> rfl)
    (by
      intro r hr
      simp at hr
      rcases hr with rfl | rfl <;> exact ⟨_, rfl⟩)

/-- Claim C10 (implicit): a status dict lacking the `status` key is a
failure, not a success — processing it raises `OperationalError` with
code `UNKNOWN_ERROR = 1`, and with the default message
"Unknown error." when the `message` key is also absent. -/
theorem claim10 (meta : Option (List Val)) (message : Option String) :
    Connection.UNKNOWN_ERROR = 1
    ∧ Connection.process_reply meta (.status none message)
        = .error (.opError Connection.UNKNOWN_ERROR
            (message.getD Connection.DEFAULT_MESSAGE))
    ∧ Connection.process_reply meta (.status none none)
        = .error (.opError 1 "Unknown error.") :=
  ⟨rfl, rfl, rfl⟩

/-- Counterexample to C6 as stated: the claim classifies an array frame
as column metadata "exactly when it is an array whose elements are
themselves ordered pairs", but the code only inspects the last element:
the frame `[1, [2, 3]]` is cached as metadata (and yields no row) even
though its first element is not a pair. -/
theorem claim6_counterexample :
    Connection.process_reply none (.arr [.vint 1, .varr [.vint 2, .vint 3]])
      = .ok (some [.vint 1, .varr [.vint 2, .vint 3]], none)
    ∧ ¬ (∀ e ∈ [Val.vint 1, Val.varr [.vint 2, .vint 3]],
          ∃ a b, e = Val.varr [a, b]) := by
  refine ⟨rfl, fun h => ?_⟩
  rcases h (Val.vint 1) (by simp) with ⟨a, b, hab⟩
  cases hab

/-- Claim C6 as amended: the reply processor classifies a non-status
(array) frame as column metadata exactly when the array is nonempty and
its *last* element is itself an array; such a frame is cached as the
active result shape and yields no row, and any array frame not of that
shape is decoded as a row against the cached shape. -/
theorem claim6_amended (meta : Option (List Val)) (data : List Val) :
    (Connection.process_reply meta (.arr data) = .ok (some data, none)
      ↔ data ≠ [] ∧ Connection.lastIsArray data = true)
    ∧ ((!data.isEmpty && Connection.lastIsArray data) = false →
        Connection.process_reply meta (.arr data)
          = (Connection.construct_row meta data).map
              fun row => (meta, some row)) := by
  have hiff : (!data.isEmpty && Connection.lastIsArray data) = true
      ↔ (data ≠ [] ∧ Connection.lastIsArray data = true) := by
    rw [Bool.and_eq_true, Bool.not_eq_true', list_isEmpty_false]
  refine ⟨⟨?_, ?_⟩, Connection.process_reply_row meta data⟩
  · intro h
    cases hc : (!data.isEmpty && Connection.lastIsArray data) with
    | true => exact hiff.mp hc
    | false =>
        exfalso
        rw [Connection.process_reply_row meta data hc] at h
        cases hcr : Connection.construct_row meta data with
        | error e =>
            rw [hcr] at h
            exact Except.noConfusion h
        | ok row =>
            rw [hcr] at h
            have h' : (Except.ok (meta, some row) : Except PyErr _)
                = .ok (some data, none) := h
            injection h' with h''
            simp at h''
  · intro hd
    have hc := hiff.mpr hd
    simp [Connection.process_reply, hc]

/-- Witness for C6 (amended) at concrete inputs: `[[("a","int")]]`-style
frames are cached as metadata, and a plain value row against a cached
shape decodes as a row. -/
theorem claim6_amended_witness :
    (Connection.process_reply none (.arr [.varr [.vstr "a", .vstr "int"]])
        = .ok (some [.varr [.vstr "a", .vstr "int"]], none)
      ↔ ([Val.varr [.vstr "a", .vstr "int"]] ≠ []
          ∧ Connection.lastIsArray [.varr [.vstr "a", .vstr "int"]] = true))
    ∧ Connection.process_reply (some [.varr [.vstr "a", .vstr "int"]])
        (.arr [.vint 7])
        = (Connection.construct_row (some [.varr [.vstr "a", .vstr "int"]])
            [.vint 7]).map
            fun row => (some [.varr [.vstr "a", .vstr "int"]], some row) :=
  ⟨(claim6_amended none [.varr [.vstr "a", .vstr "int"]]).1,
   (claim6_amended (some [.varr [.vstr "a", .vstr "int"]]) [.vint 7]).2 rfl⟩

/-- Claim C2: a status frame whose status code is nonzero raises
`OperationalError` carrying that code and the frame's message (the
message defaulting to the literal "Unknown error." when absent); the
raise halts the reply generator — the result does not depend on any
frames after the failing status — and the rows already yielded before
the failure are exactly the rows produced. -/
theorem claim2 (code : Int) (message : Option String)
    (front rest : List Frame) (produced : List Connection.Row)
    (mF : Option (List Val))
    (hcode : code ≠ Connection.OK)
    (hfront : Connection.recv_loop none front = (produced, mF, none)) :
    Connection.check_status (some code) message
      = .error (.opError code (message.getD Connection.DEFAULT_MESSAGE))
    ∧ Connection.recv (front ++ .status (some code) message :: rest)
      = (produced,
         some (.opError code (message.getD Connection.DEFAULT_MESSAGE))) := by
  have hcs : Connection.check_status (some code) message
      = .error (.opError code (message.getD Connection.DEFAULT_MESSAGE)) := by
    simp [Connection.check_status, hcode]
  refine ⟨hcs, ?_⟩
  have happ := Connection.recv_loop_append front none mF produced
    (.status (some code) message :: rest) hfront
  have hpr : Connection.process_reply mF (.status (some code) message)
      = .error (.opError code (message.getD Connection.DEFAULT_MESSAGE)) := by
    simp only [Connection.process_reply, hcs]
    rfl
  have hstat := Connection.recv_loop_cons_error rest hpr
  simp [Connection.recv, happ, hstat]

/-- Witness for C2 at a concrete input: after a metadata frame and one
row frame, a status frame with code 5 and no message raises
`OperationalError(5, "Unknown error.")`; the row already yielded is
kept, and a frame after the failing status is never processed. -/
theorem claim2_witness :
    Connection.check_status (some 5) none
      = .error (.opError 5 "Unknown error.")
    ∧ Connection.recv
        [.arr [.varr [.vstr "a", .vstr "int"]], .arr [.vint 7],
         .status (some 5) none, .arr [.vint 9]]
      = ([[(.vstr "a", .vint 7)]], some (.opError 5 "Unknown error.")) :=
  claim2 5 none [.arr [.varr [.vstr "a", .vstr "int"]], .arr [.vint 7]]
    [.arr [.vint 9]] [[(.vstr "a", .vint 7)]]
    (some [.varr [.vstr "a", .vstr "int"]]) (by decide) rfl

end Squery
